import Mathlib

/-!
Shallow embedding of `src/src/lib.rs` (a `no_std` WebAssembly canvas demo).

The module holds a 600x600 buffer of packed `u32` pixels (`BUFFER`), an atomic
frame counter (`FRAME`), a render routine `render_frame_safe` invoked by the
exported entry point `go`, and a constant entry point `the_answer`.

The host supplies the trigonometric callback `js_sin` (an `extern` import);
it is therefore modelled as an abstract parameter `periodic : Nat → ℚ`
(every finite `f32` value is an exact rational; `f32` arithmetic in the
per-pixel brightness expression is modelled as exact rational arithmetic).
Machine integers are modelled as `Nat` with explicit `% 2 ^ 32` where Rust
performs wrapping; the Rust saturating float-to-integer cast `as u32` is
modelled explicitly by `f32_as_u32`.
-/

/-- `const WIDTH: usize = 600;` -/
def WIDTH : Nat := 600

/-- `const HEIGHT: usize = 600;` -/
def HEIGHT : Nat := 600

/-- The modulus of `u32` arithmetic. -/
def U32_MOD : Nat := 2 ^ 32

/-- The mutable module state: the atomic counter `FRAME` and the pixel
buffer `BUFFER`, the latter modelled as a map from linear index to the
stored `u32` value. -/
structure MState where
  frame : Nat
  buffer : Nat → Nat

/-- The state at module instantiation: `FRAME = AtomicU32::new(0)` and
`BUFFER = [0; WIDTH * HEIGHT]`. -/
def initState : MState := { frame := 0, buffer := fun _ => 0 }

/-- Rust `v as u32` applied to a finite `f32` value `v` (modelled as an exact
rational): truncate toward zero, saturating below at `0` and above at
`u32::MAX`.  For `v ≥ 0` truncation toward zero coincides with the floor. -/
def f32_as_u32 (v : ℚ) : Nat :=
  if v < 0 then 0 else min (Rat.floor v).toNat (2 ^ 32 - 1)

/-- The packed pixel written at coordinate `(x, y)` when the captured frame
index is `f`:
`f.wrapping_add((sin(x as f32) * 255. + sin(y as f32) * 255.) as u32) | 0xFF_00_00_00`. -/
def pixelValue (periodic : Nat → ℚ) (f x y : Nat) : Nat :=
  ((f + f32_as_u32 (periodic x * 255 + periodic y * 255)) % U32_MOD) ||| 0xFF000000

/-- A single array store `buffer[i] = v`. -/
def store (buf : Nat → Nat) (i v : Nat) : Nat → Nat :=
  fun j => if j = i then v else buf j

/-- The inner loop `for x in 0..WIDTH { buffer[y * WIDTH + x] = ... }`. -/
def fillRow (periodic : Nat → ℚ) (f y : Nat) (buf : Nat → Nat) : Nat → Nat :=
  (List.range WIDTH).foldl
    (fun b x => store b (y * WIDTH + x) (pixelValue periodic f x y)) buf

/-- The outer loop `for y in 0..HEIGHT { ... }`. -/
def fillAll (periodic : Nat → ℚ) (f : Nat) (buf : Nat → Nat) : Nat → Nat :=
  (List.range HEIGHT).foldl (fun b y => fillRow periodic f y b) buf

/-- `render_frame_safe`: capture `f = FRAME.fetch_add(1, Relaxed)` (the old
value; the counter advances by one, wrapping), then fill every pixel of the
buffer using the captured `f`. -/
def render_frame_safe (periodic : Nat → ℚ) (s : MState) : MState :=
  { frame := (s.frame + 1) % U32_MOD
    buffer := fillAll periodic s.frame s.buffer }

/-- `pub unsafe extern fn go()`: the exported render entry point; it only
forwards the (unique) mutable buffer to `render_frame_safe`. -/
def go : (Nat → ℚ) → MState → MState := render_frame_safe

/-- The module state after `n` calls of the render entry point, starting
from the initial state. -/
def callSequence (periodic : Nat → ℚ) : Nat → MState
  | 0 => initState
  | n + 1 => render_frame_safe periodic (callSequence periodic n)

/-- `pub extern fn the_answer() -> u32 { 42 }`. -/
def the_answer : Nat := 42

/-- Calling `the_answer` as seen from the module state: the body is a pure
constant, so the state is returned untouched alongside the result. -/
def the_answer_call (s : MState) : MState × Nat := (s, the_answer)

/-- Rust checked indexing `buffer[i]` for the fixed-size array: `some` index
when in bounds, `none` on the panic branch. -/
def indexCheck (i : Nat) : Option Nat :=
  if i < WIDTH * HEIGHT then some i else none

/- ### Characterization of the write loops -/

theorem render_buffer_eq (periodic : Nat → ℚ) (s : MState) :
    (render_frame_safe periodic s).buffer
      = fillAll periodic s.frame s.buffer := by
  simp only [render_frame_safe]

theorem render_frame_eq (periodic : Nat → ℚ) (s : MState) :
    (render_frame_safe periodic s).frame = (s.frame + 1) % U32_MOD := by
  simp only [render_frame_safe]

theorem store_apply (buf : Nat → Nat) (i v j : Nat) :
    store buf i v j = if j = i then v else buf j := rfl

theorem foldl_store_apply (g : Nat → Nat) (base : Nat) (b : Nat → Nat)
    (n j : Nat) :
    ((List.range n).foldl (fun bb x => store bb (base + x) (g x)) b) j
      = if base ≤ j ∧ j < base + n then g (j - base) else b j := by
  induction n with
  | zero => rw [if_neg (by omega)]; simp
  | succ n ih =>
    rw [List.range_succ, List.foldl_append, List.foldl_cons, List.foldl_nil]
    rw [store_apply, ih]
    by_cases hj : j = base + n
    · rw [if_pos hj, if_pos (by omega)]
      subst hj
      rw [Nat.add_sub_cancel_left]
    · rw [if_neg hj]
      by_cases hin : base ≤ j ∧ j < base + n
      · rw [if_pos hin, if_pos (by omega)]
      · rw [if_neg hin, if_neg (by omega)]

theorem fillRow_apply (periodic : Nat → ℚ) (f y : Nat) (b : Nat → Nat)
    (j : Nat) :
    fillRow periodic f y b j
      = if y * WIDTH ≤ j ∧ j < y * WIDTH + WIDTH then
          pixelValue periodic f (j - y * WIDTH) y
        else b j :=
  foldl_store_apply (fun x => pixelValue periodic f x y) (y * WIDTH) b WIDTH j

theorem foldl_fillRow_apply (periodic : Nat → ℚ) (f : Nat) (b : Nat → Nat)
    (n j : Nat) :
    ((List.range n).foldl (fun bb y => fillRow periodic f y bb) b) j
      = if j < n * WIDTH then pixelValue periodic f (j % WIDTH) (j / WIDTH)
        else b j := by
  induction n with
  | zero => simp
  | succ n ih =>
    rw [List.range_succ, List.foldl_append, List.foldl_cons, List.foldl_nil]
    rw [fillRow_apply, ih]
    simp only [WIDTH]
    by_cases h1 : n * 600 ≤ j ∧ j < n * 600 + 600
    · rw [if_pos h1, if_pos (by omega : j < (n + 1) * 600)]
      have e1 : j - n * 600 = j % 600 := by omega
      have e2 : n = j / 600 := by omega
      rw [e1, e2]
    · rw [if_neg h1]
      by_cases h2 : j < n * 600
      · rw [if_pos h2, if_pos (by omega : j < (n + 1) * 600)]
      · rw [if_neg h2, if_neg (by omega : ¬j < (n + 1) * 600)]

theorem fillAll_apply (periodic : Nat → ℚ) (f : Nat) (b : Nat → Nat)
    (x y : Nat) (hx : x < WIDTH) (hy : y < HEIGHT) :
    fillAll periodic f b (y * WIDTH + x) = pixelValue periodic f x y := by
  unfold fillAll
  rw [foldl_fillRow_apply]
  simp only [WIDTH, HEIGHT] at *
  rw [if_pos (by omega : y * 600 + x < 600 * 600)]
  have e1 : (y * 600 + x) % 600 = x := by omega
  have e2 : (y * 600 + x) / 600 = y := by omega
  rw [e1, e2]

theorem fillAll_apply_of_lt (periodic : Nat → ℚ) (f : Nat) (b : Nat → Nat)
    (i : Nat) (hi : i < WIDTH * HEIGHT) :
    fillAll periodic f b i = pixelValue periodic f (i % WIDTH) (i / WIDTH) := by
  unfold fillAll
  rw [foldl_fillRow_apply]
  simp only [WIDTH, HEIGHT] at *
  rw [if_pos (by omega : i < 600 * 600)]

theorem rat_floor_eq_intFloor (q : ℚ) : Rat.floor q = ⌊q⌋ := rfl

theorem f32_as_u32_zero : f32_as_u32 0 = 0 := by
  unfold f32_as_u32
  rw [if_neg (lt_irrefl (0 : ℚ)), rat_floor_eq_intFloor, Int.floor_zero]
  simp

/- ### Normal form of the packed pixel -/

theorem hi_byte_testBit (i : Nat) :
    Nat.testBit 0xFF000000 i = decide (24 ≤ i ∧ i < 32) := by
  by_cases h : i < 32
  · interval_cases i <;> decide
  · have hlt : (0xFF000000 : Nat) < 2 ^ i :=
      lt_of_lt_of_le (by norm_num)
        (Nat.pow_le_pow_right (by norm_num) (by omega : 32 ≤ i))
    rw [Nat.testBit_lt_two_pow hlt]
    simp
    omega

theorem lor_hi_eq (a : Nat) (ha : a < 2 ^ 32) :
    a ||| 0xFF000000 = 0xFF000000 + a % 2 ^ 24 := by
  have hb : a % 2 ^ 24 < 2 ^ 24 := Nat.mod_lt _ (by norm_num)
  have hrw : (0xFF000000 : Nat) + a % 2 ^ 24 = 2 ^ 24 * 0xFF + a % 2 ^ 24 := by
    norm_num
  rw [hrw]
  apply Nat.eq_of_testBit_eq
  intro i
  rw [Nat.testBit_mul_pow_two_add _ hb i, Nat.testBit_or, hi_byte_testBit]
  have h255 : ∀ k, Nat.testBit 0xFF k = decide (k < 8) := by
    intro k
    rw [show (0xFF : Nat) = 2 ^ 8 - 1 from rfl, Nat.testBit_two_pow_sub_one]
  by_cases h24 : i < 24
  · rw [if_pos h24]
    have t1 : decide (24 ≤ i ∧ i < 32) = false := by simp; omega
    have t2 : decide (i < 24) = true := by simp [h24]
    rw [t1, Bool.or_false, Nat.testBit_mod_two_pow, t2, Bool.true_and]
  · rw [if_neg h24, h255]
    by_cases h32 : i < 32
    · have t1 : decide (24 ≤ i ∧ i < 32) = true := by simp; omega
      have t2 : decide (i - 24 < 8) = true := by simp; omega
      rw [t1, t2, Bool.or_true]
    · have hlt : a < 2 ^ i :=
        lt_of_lt_of_le ha (Nat.pow_le_pow_right (by norm_num) (by omega))
      rw [Nat.testBit_lt_two_pow hlt]
      have t1 : decide (24 ≤ i ∧ i < 32) = false := by simp; omega
      have t2 : decide (i - 24 < 8) = false := by simp; omega
      rw [t1, t2, Bool.or_false]

theorem lor_lo_eq (c : Nat) (hc : c < 2 ^ 24) :
    0xFF000000 ||| c = 0xFF000000 + c := by
  rw [Nat.lor_comm, lor_hi_eq c (lt_trans hc (by norm_num)), Nat.mod_eq_of_lt hc]

theorem pixelValue_eq (periodic : Nat → ℚ) (f x y : Nat) :
    pixelValue periodic f x y
      = 0xFF000000
          + (f + f32_as_u32 (periodic x * 255 + periodic y * 255)) % 2 ^ 24 := by
  unfold pixelValue U32_MOD
  rw [lor_hi_eq _ (Nat.mod_lt _ (by norm_num))]
  rw [Nat.mod_mod_of_dvd _ (⟨2 ^ 8, by norm_num⟩ : (2 : Nat) ^ 24 ∣ 2 ^ 32)]

theorem pixelValue_lt (periodic : Nat → ℚ) (f x y : Nat) :
    pixelValue periodic f x y < 2 ^ 32 := by
  rw [pixelValue_eq]
  have hb : (f + f32_as_u32 (periodic x * 255 + periodic y * 255)) % 2 ^ 24
      < 2 ^ 24 := Nat.mod_lt _ (by norm_num)
  norm_num at hb ⊢
  omega

theorem callSequence_frame (periodic : Nat → ℚ) (n : Nat) :
    (callSequence periodic n).frame = n % 2 ^ 32 := by
  induction n with
  | zero => rfl
  | succ n ih =>
    show ((callSequence periodic n).frame + 1) % U32_MOD = (n + 1) % 2 ^ 32
    rw [ih]
    unfold U32_MOD
    exact Nat.mod_add_mod n (2 ^ 32) 1

/- ### Claim theorems -/

/-- C1: for every render call and every coordinate (x, y) with x < 600 and
y < 600, the pixel stored at linear index y * W + x equals the brightness
sum periodic(x) * 255 + periodic(y) * 255 (host-supplied periodic function)
truncated/converted to an unsigned integer, added with u32 wraparound to the
frame index captured for that call, with the result's low 24 bits combined
with the fixed high byte 0xFF. -/
theorem C1_pixel_formula (periodic : Nat → ℚ) (s : MState) (x y : Nat)
    (hx : x < 600) (hy : y < 600) :
    (render_frame_safe periodic s).buffer (y * WIDTH + x)
      = 0xFF000000
          ||| ((s.frame + f32_as_u32 (periodic x * 255 + periodic y * 255))
                % 2 ^ 24) := by
  rw [render_buffer_eq, fillAll_apply periodic s.frame s.buffer x y
    (by simp only [WIDTH]; omega) (by simp only [HEIGHT]; omega)]
  rw [pixelValue_eq, lor_lo_eq _ (Nat.mod_lt _ (by norm_num))]

theorem C1_pixel_formula_witness :
    (render_frame_safe (fun _ => (0 : ℚ)) initState).buffer (0 * WIDTH + 0)
      = 0xFF000000
          ||| ((initState.frame
                + f32_as_u32 ((fun _ => (0 : ℚ)) 0 * 255
                    + (fun _ => (0 : ℚ)) 0 * 255)) % 2 ^ 24) :=
  C1_pixel_formula (fun _ => (0 : ℚ)) initState 0 0 (by norm_num) (by norm_num)

/-- C2: starting from the initial state (counter 0), for every N and every k
with 1 ≤ k ≤ N, the frame index captured by the k-th render call (the
counter value entering that call) equals k - 1, assuming no overflow. -/
theorem C2_captured_index (periodic : Nat → ℚ) (N k : Nat)
    (h1 : 1 ≤ k) (h2 : k ≤ N) (hov : k - 1 < 2 ^ 32) :
    (callSequence periodic (k - 1)).frame = k - 1 := by
  rw [callSequence_frame, Nat.mod_eq_of_lt hov]

theorem C2_captured_index_witness :
    (callSequence (fun _ => (0 : ℚ)) (2 - 1)).frame = 2 - 1 :=
  C2_captured_index (fun _ => (0 : ℚ)) 3 2 (by norm_num) (by norm_num)
    (by norm_num)

/-- C3: a render call reads-then-increments the shared counter exactly once
(its value after the call is one more than before, wrapping — not once per
pixel), and the single value captured at the start of the call is the one
used for every pixel written in that call. -/
theorem C3_counter_once (periodic : Nat → ℚ) (s : MState) (x y : Nat)
    (hx : x < 600) (hy : y < 600) :
    (render_frame_safe periodic s).frame = (s.frame + 1) % 2 ^ 32 ∧
    (render_frame_safe periodic s).buffer (y * WIDTH + x)
      = pixelValue periodic s.frame x y := by
  refine ⟨rfl, ?_⟩
  rw [render_buffer_eq]
  exact fillAll_apply periodic s.frame s.buffer x y
    (by simp only [WIDTH]; omega) (by simp only [HEIGHT]; omega)

theorem C3_counter_once_witness :
    (render_frame_safe (fun _ => (0 : ℚ)) initState).frame
        = (initState.frame + 1) % 2 ^ 32 ∧
    (render_frame_safe (fun _ => (0 : ℚ)) initState).buffer (0 * WIDTH + 0)
        = pixelValue (fun _ => (0 : ℚ)) initState.frame 0 0 :=
  C3_counter_once (fun _ => (0 : ℚ)) initState 0 0 (by norm_num) (by norm_num)

/-- C4: immediately after any render call, every cell of the 600*600 buffer
holds a 32-bit value whose high byte (bits 24-31) is 0xFF. -/
theorem C4_high_byte (periodic : Nat → ℚ) (s : MState) (i : Nat)
    (hi : i < WIDTH * HEIGHT) :
    (render_frame_safe periodic s).buffer i < 2 ^ 32 ∧
    (render_frame_safe periodic s).buffer i / 2 ^ 24 = 0xFF := by
  have hb : (render_frame_safe periodic s).buffer i
      = pixelValue periodic s.frame (i % WIDTH) (i / WIDTH) := by
    rw [render_buffer_eq]
    exact fillAll_apply_of_lt periodic s.frame s.buffer i hi
  have h24 : (2 : Nat) ^ 24 = 16777216 := by norm_num
  have h32 : (2 : Nat) ^ 32 = 4294967296 := by norm_num
  rw [hb, pixelValue_eq, h24, h32]
  omega

theorem C4_high_byte_witness :
    (render_frame_safe (fun _ => (0 : ℚ)) initState).buffer 0 < 2 ^ 32 ∧
    (render_frame_safe (fun _ => (0 : ℚ)) initState).buffer 0 / 2 ^ 24
        = 0xFF :=
  C4_high_byte (fun _ => (0 : ℚ)) initState 0 (by decide)

/-- C5: a render call made with the frame counter at u32::MAX wraps the
counter to 0 (the increment is defined, not a trap). -/
theorem C5_counter_wraps (periodic : Nat → ℚ) (s : MState)
    (h : s.frame = 2 ^ 32 - 1) :
    (render_frame_safe periodic s).frame = 0 := by
  show (s.frame + 1) % U32_MOD = 0
  rw [h]
  norm_num [U32_MOD]

theorem C5_counter_wraps_witness :
    (render_frame_safe (fun _ => (0 : ℚ))
        { frame := 2 ^ 32 - 1, buffer := fun _ => 0 }).frame = 0 :=
  C5_counter_wraps (fun _ => (0 : ℚ))
    { frame := 2 ^ 32 - 1, buffer := fun _ => 0 } rfl

/-- C6: the render routine cannot fail under normal operation: for x < 600
and y < 600 the buffer access at linear index y * W + x is in bounds (the
panic branch of the checked indexing is unreachable), and the per-pixel
arithmetic and the counter update use wrapping semantics yielding values in
u32 range, never a trap. -/
theorem C6_no_failure (periodic : Nat → ℚ) (s : MState) (x y : Nat)
    (hx : x < 600) (hy : y < 600) :
    indexCheck (y * WIDTH + x) = some (y * WIDTH + x) ∧
    pixelValue periodic s.frame x y < 2 ^ 32 ∧
    (render_frame_safe periodic s).frame < 2 ^ 32 := by
  refine ⟨?_, pixelValue_lt periodic s.frame x y, ?_⟩
  · unfold indexCheck
    rw [if_pos (by simp only [WIDTH, HEIGHT]; omega :
      y * WIDTH + x < WIDTH * HEIGHT)]
  · rw [render_frame_eq]
    exact Nat.mod_lt _ (by norm_num [U32_MOD])

theorem C6_no_failure_witness :
    indexCheck (0 * WIDTH + 0) = some (0 * WIDTH + 0) ∧
    pixelValue (fun _ => (0 : ℚ)) initState.frame 0 0 < 2 ^ 32 ∧
    (render_frame_safe (fun _ => (0 : ℚ)) initState).frame < 2 ^ 32 :=
  C6_no_failure (fun _ => (0 : ℚ)) initState 0 0 (by norm_num) (by norm_num)

/-- C7: with the periodic function equal to mathematical sine — which
vanishes at 0, the only input the pixel at coordinate (0,0) consults — the
first render call (captured frame index 0) stores 0xFF000000 at (0,0) and
the second call (captured frame index 1) stores 0xFF000001 there. -/
theorem C7_first_two_calls (periodic : Nat → ℚ) (h0 : periodic 0 = 0) :
    (render_frame_safe periodic initState).buffer (0 * WIDTH + 0)
        = 0xFF000000 ∧
    (render_frame_safe periodic
        (render_frame_safe periodic initState)).buffer (0 * WIDTH + 0)
      = 0xFF000001 := by
  have hv : f32_as_u32 (periodic 0 * 255 + periodic 0 * 255) = 0 := by
    rw [h0, show (0 : ℚ) * 255 + 0 * 255 = 0 by norm_num]
    exact f32_as_u32_zero
  have hpix0 : pixelValue periodic 0 0 0 = 0xFF000000 := by
    rw [pixelValue_eq, hv]
    norm_num
  have hpix1 : pixelValue periodic 1 0 0 = 0xFF000001 := by
    rw [pixelValue_eq, hv]
    norm_num
  constructor
  · rw [render_buffer_eq, fillAll_apply periodic initState.frame
      initState.buffer 0 0 (by norm_num [WIDTH]) (by norm_num [HEIGHT])]
    rw [show initState.frame = 0 from rfl]
    exact hpix0
  · rw [render_buffer_eq, fillAll_apply periodic
      (render_frame_safe periodic initState).frame
      (render_frame_safe periodic initState).buffer 0 0
      (by norm_num [WIDTH]) (by norm_num [HEIGHT])]
    rw [render_frame_eq, show initState.frame = 0 from rfl,
      show (0 + 1) % U32_MOD = 1 by norm_num [U32_MOD]]
    exact hpix1

theorem C7_first_two_calls_witness :
    (render_frame_safe (fun _ => (0 : ℚ)) initState).buffer (0 * WIDTH + 0)
        = 0xFF000000 ∧
    (render_frame_safe (fun _ => (0 : ℚ))
        (render_frame_safe (fun _ => (0 : ℚ)) initState)).buffer
        (0 * WIDTH + 0)
      = 0xFF000001 :=
  C7_first_two_calls (fun _ => (0 : ℚ)) rfl

/-- C8: the constant-query entry point takes no arguments, returns the fixed
32-bit value 42 on every invocation regardless of prior state, and has no
side effects: the frame counter and the pixel buffer are unchanged. -/
theorem C8_the_answer (s : MState) :
    the_answer = 42 ∧ (the_answer_call s).2 = 42 ∧
    (the_answer_call s).1.frame = s.frame ∧
    (the_answer_call s).1.buffer = s.buffer :=
  ⟨rfl, rfl, rfl, rfl⟩

/-- C9: when the brightness sum periodic(x) * 255 + periodic(y) * 255 is
negative, the float-to-unsigned conversion saturates to 0 (it does not wrap
to a large unsigned value), so the stored pixel equals the captured frame
index's low 24 bits combined with the high byte 0xFF. -/
theorem C9_negative_saturates (periodic : Nat → ℚ) (s : MState) (x y : Nat)
    (hx : x < 600) (hy : y < 600)
    (hneg : periodic x * 255 + periodic y * 255 < 0) :
    f32_as_u32 (periodic x * 255 + periodic y * 255) = 0 ∧
    (render_frame_safe periodic s).buffer (y * WIDTH + x)
      = 0xFF000000 ||| (s.frame % 2 ^ 24) := by
  have hv : f32_as_u32 (periodic x * 255 + periodic y * 255) = 0 := by
    unfold f32_as_u32
    rw [if_pos hneg]
  refine ⟨hv, ?_⟩
  rw [render_buffer_eq, fillAll_apply periodic s.frame s.buffer x y
    (by simp only [WIDTH]; omega) (by simp only [HEIGHT]; omega)]
  rw [pixelValue_eq, hv, lor_lo_eq _ (Nat.mod_lt _ (by norm_num)),
    Nat.add_zero]

theorem C9_negative_saturates_witness :
    f32_as_u32 ((fun _ => (-1 : ℚ)) 0 * 255 + (fun _ => (-1 : ℚ)) 0 * 255)
        = 0 ∧
    (render_frame_safe (fun _ => (-1 : ℚ)) initState).buffer (0 * WIDTH + 0)
      = 0xFF000000 ||| (initState.frame % 2 ^ 24) :=
  C9_negative_saturates (fun _ => (-1 : ℚ)) initState 0 0 (by norm_num)
    (by norm_num) (by norm_num)

/-- C10: after any render call the buffer is symmetric across the main
diagonal: for x < 600 and y < 600 the pixel at index y * W + x equals the
pixel at index x * W + y, because the per-pixel formula is symmetric in
x and y and the grid is square. -/
theorem C10_diagonal_symmetry (periodic : Nat → ℚ) (s : MState) (x y : Nat)
    (hx : x < 600) (hy : y < 600) :
    (render_frame_safe periodic s).buffer (y * WIDTH + x)
      = (render_frame_safe periodic s).buffer (x * WIDTH + y) := by
  rw [render_buffer_eq,
    fillAll_apply periodic s.frame s.buffer x y
      (by simp only [WIDTH]; omega) (by simp only [HEIGHT]; omega),
    fillAll_apply periodic s.frame s.buffer y x
      (by simp only [WIDTH]; omega) (by simp only [HEIGHT]; omega)]
  unfold pixelValue
  rw [add_comm (periodic x * 255) (periodic y * 255)]

theorem C10_diagonal_symmetry_witness :
    (render_frame_safe (fun _ => (0 : ℚ)) initState).buffer (1 * WIDTH + 0)
      = (render_frame_safe (fun _ => (0 : ℚ)) initState).buffer
          (0 * WIDTH + 1) :=
  C10_diagonal_symmetry (fun _ => (0 : ℚ)) initState 0 1 (by norm_num)
    (by norm_num)
